import Mathlib

/-!
Verification of the FAISS-backed resume index service
(backend/app/services/faiss_service.py).

The service keeps three coupled pieces of state:
an IndexFlatL2 vector store (here a list of vectors, with ntotal its
length), a metadata dictionary keyed by resume id, and an id-to-position
dictionary mapping a resume id to a physical slot of the vector store.

Modelling decisions (all from the source, file faiss_service.py):
- Python dictionaries are insertion-ordered maps; they are embedded as
  association lists with the update-in-place, delete, and iteration-order
  semantics of CPython dicts (see dictGet, dictSet, dictDel below).
- Vector components are embedded as integers. The service never
  inspects a component except through squared-distance comparisons, and
  every property at issue (counts, membership, hit ordering with its
  tie-break, exact zero self-distance) is an ordered-ring fact; integer
  components keep all definitions kernel-computable.
- faiss.IndexFlatL2 is an external library whose exact brute-force
  search semantics is: squared Euclidean distance against every stored
  vector, the k smallest returned in ascending order, ties broken by
  ascending physical position. add raises on a dimension mismatch,
  which the service catches, returning a failure flag.
- try/except blocks that swallow an exception and return a fallback are
  embedded as the corresponding total function producing the fallback.
-/

/-- Fixed embedding dimension of the service, line 35 of the source:
faiss.IndexFlatL2 is built with 384 dimensions. -/
def dim : Nat := 384

/-- A vector of the store: components are exact integers (see above). -/
abbrev Vec : Type := List ℤ

/-- Arbitrary key/value attributes attached to a resume. The service
treats them as opaque; string pairs suffice for the embedding. -/
abbrev AttrMap : Type := List (String × String)

/-- One metadata record, as stored at lines 115-118 of the source:
the resume text plus the caller-supplied attributes. -/
structure MetaRec where
  text : String
  metadata : AttrMap
deriving DecidableEq

/-- Lookup in a CPython-style insertion-ordered dictionary: the first
entry with the given key (keys are unique in real dictionary states). -/
def dictGet {β : Type} : List (String × β) → String → Option β
  | [], _ => none
  | kv :: rest, k => if kv.1 = k then some kv.2 else dictGet rest k

/-- Update in a CPython-style dictionary: an existing key keeps its
place in the order and gets the new value; a new key is appended. -/
def dictSet {β : Type} : List (String × β) → String → β → List (String × β)
  | [], k, v => [(k, v)]
  | kv :: rest, k, v => if kv.1 = k then (k, v) :: rest else kv :: dictSet rest k v

/-- Deletion in a CPython-style dictionary: removes the entry with the
given key (the first one, were there duplicates). -/
def dictDel {β : Type} : List (String × β) → String → List (String × β)
  | [], _ => []
  | kv :: rest, k => if kv.1 = k then rest else kv :: dictDel rest k

/-- The full in-memory state of FAISSService: the IndexFlatL2 contents
(position p holds the p-th list element), the metadata dict and the
id-to-position dict (class attributes at lines 22-24 of the source). -/
structure FAISSState where
  index : List Vec
  metadata : List (String × MetaRec)
  id_to_index : List (String × Nat)
deriving DecidableEq

/-- Squared Euclidean distance, the metric of IndexFlatL2. -/
def sqDist (q w : Vec) : ℤ :=
  (List.zipWith (fun a b => (a - b) * (a - b)) q w).sum

/-- Result-ranking order of IndexFlatL2: ascending squared distance,
ties broken by ascending physical position. -/
abbrev distLe (a b : Nat × ℤ) : Prop :=
  a.2 < b.2 ∨ (a.2 = b.2 ∧ a.1 ≤ b.1)

instance : IsTotal (Nat × ℤ) distLe := by
  constructor
  intro a b
  rcases lt_trichotomy a.2 b.2 with h | h | h
  · exact Or.inl (Or.inl h)
  · rcases Nat.le_total a.1 b.1 with h1 | h1
    · exact Or.inl (Or.inr ⟨h, h1⟩)
    · exact Or.inr (Or.inr ⟨h.symm, h1⟩)
  · exact Or.inr (Or.inl h)

instance : IsTrans (Nat × ℤ) distLe := by
  constructor
  intro a b c hab hbc
  rcases hab with h | ⟨he, hn⟩ <;> rcases hbc with h2 | ⟨he2, hn2⟩
  · exact Or.inl (h.trans h2)
  · exact Or.inl (he2 ▸ h)
  · exact Or.inl (he ▸ h2)
  · exact Or.inr ⟨he.trans he2, hn.trans hn2⟩

/-- The candidate list the brute-force search ranks: every physical
position of the store paired with its squared distance to the query. -/
def cands (s : FAISSState) (q : Vec) : List (Nat × ℤ) :=
  (List.range s.index.length).map (fun p => (p, sqDist q (s.index.getD p [])))

/-- The (position, distance) pairs IndexFlatL2.search returns for the
clamped k: the k smallest candidates in (distance, position) order.
Corresponds to lines 154-157 of the source. -/
def searchTop (s : FAISSState) (q : Vec) (k : Nat) : List (Nat × ℤ) :=
  (List.insertionSort distLe (cands s q)).take (min k s.index.length)

/-- Reverse lookup through the dict comprehension at line 168 of the
source: index_to_id inverts id_to_index, a later entry overwriting an
earlier one that maps to the same position. -/
def revLookup (m : List (String × Nat)) (p : Nat) : Option String :=
  match m.reverse.find? (fun kv => kv.2 = p) with
  | none => none
  | some kv => some kv.1

/-- Metadata joined into a hit, lines 173-178 of the source: a missing
record degrades to empty text and attributes via dict.get defaults. -/
def hitRecord (s : FAISSState) (rid : String) : MetaRec :=
  (dictGet s.metadata rid).getD ⟨"", []⟩

/-- The four parallel result lists built by search_resumes. -/
structure SearchResults where
  ids : List String
  distances : List ℤ
  documents : List String
  metadatas : List AttrMap
deriving DecidableEq

/-- FAISSService.add_resume, lines 90-129 of the source: append the
vector at position ntotal, store the metadata record, bind the id to
the new position. A dimension mismatch makes faiss raise, the except
block catches it and the call returns False with nothing mutated. -/
def add_resume (resume_id resume_text : String) (embedding : Vec)
    (md : AttrMap) (s : FAISSState) : Bool × FAISSState :=
  if embedding.length ≠ dim then (false, s)
  else
    (true,
      { index := s.index ++ [embedding],
        metadata := dictSet s.metadata resume_id ⟨resume_text, md⟩,
        id_to_index := dictSet s.id_to_index resume_id s.index.length })

/-- FAISSService.search_resumes, lines 131-184 of the source: an empty
index short-circuits to empty results; a query of the wrong dimension
makes faiss raise and the call returns None; otherwise k is clamped to
ntotal, the top hits are ranked, and each hit whose position has an id
is joined with its metadata (unmapped positions are skipped). -/
def search_resumes (q : Vec) (n_results : Nat) (s : FAISSState) :
    Option SearchResults :=
  if s.index.length = 0 then some ⟨[], [], [], []⟩
  else if q.length ≠ dim then none
  else
    some
      { ids := (searchTop s q n_results).filterMap
          (fun pd => revLookup s.id_to_index pd.1),
        distances := (searchTop s q n_results).filterMap
          (fun pd => (revLookup s.id_to_index pd.1).map (fun _ => pd.2)),
        documents := (searchTop s q n_results).filterMap
          (fun pd => (revLookup s.id_to_index pd.1).map
            (fun rid => (hitRecord s rid).text)),
        metadatas := (searchTop s q n_results).filterMap
          (fun pd => (revLookup s.id_to_index pd.1).map
            (fun rid => (hitRecord s rid).metadata)) }

/-- The ids of a search outcome (None yields no ids). -/
def searchIds (o : Option SearchResults) : List String :=
  match o with
  | none => []
  | some r => r.ids

/-- The distances of a search outcome (None yields none). -/
def searchDists (o : Option SearchResults) : List ℤ :=
  match o with
  | none => []
  | some r => r.distances

/-- FAISSService._rebuild_index, lines 208-230 of the source, mapping
part: remaining ids are bound to consecutive positions 0, 1, ... in
metadata iteration order. The vectors themselves are NOT re-added (the
source only rebuilds the mapping over a fresh empty IndexFlatL2). -/
def rebuilt_id_to_index (m : List (String × MetaRec)) : List (String × Nat) :=
  m.enum.map (fun p => (p.2.1, p.1))

/-- FAISSService.delete_resume, lines 186-206, plus _rebuild_index,
lines 208-230: an absent id returns False; otherwise the id is removed
from both dicts and the index is rebuilt — a fresh empty IndexFlatL2
with only the id-to-position mapping rebuilt from remaining metadata.
If the id were in metadata but not in id_to_index, the del at line 196
would raise KeyError after metadata was already mutated, and the except
block would return False. -/
def delete_resume (resume_id : String) (s : FAISSState) : Bool × FAISSState :=
  if dictGet s.metadata resume_id = none then (false, s)
  else if dictGet s.id_to_index resume_id = none then
    (false, { index := s.index, metadata := dictDel s.metadata resume_id,
              id_to_index := s.id_to_index })
  else
    (true, { index := [], metadata := dictDel s.metadata resume_id,
             id_to_index := rebuilt_id_to_index (dictDel s.metadata resume_id) })

/-- FAISSService.clear_collection, lines 268-283: fresh empty index and
empty dicts, always succeeds. -/
def clear_collection (_s : FAISSState) : Bool × FAISSState :=
  (true, { index := [], metadata := [], id_to_index := [] })

/-- FAISSService.get_collection_stats, lines 250-266. -/
structure Stats where
  total_items : Nat
  dimension : Nat
  index_type : String
deriving DecidableEq

/-- get_collection_stats: total_items is ntotal of the index. -/
def get_collection_stats (s : FAISSState) : Stats :=
  { total_items := s.index.length, dimension := dim,
    index_type := "IndexFlatL2" }

/-- FAISSService.list_all_resumes, lines 285-293: the metadata keys. -/
def list_all_resumes (s : FAISSState) : List String :=
  s.metadata.map Prod.fst

/-- The empty starting state (fresh index, empty dicts). -/
def mkEmpty : FAISSState := { index := [], metadata := [], id_to_index := [] }

set_option maxRecDepth 40000

/-- Lookup after an update at the same key. -/
theorem dictGet_dictSet_self {β : Type} (m : List (String × β)) (k : String) (v : β) :
    dictGet (dictSet m k v) k = some v := by
  induction m with
  | nil => simp [dictGet, dictSet]
  | cons kv rest ih =>
    by_cases h : kv.1 = k
    · simp [dictSet, dictGet, h]
    · simp [dictSet, dictGet, h, ih]

/-- Lookup after an update at a different key. -/
theorem dictGet_dictSet_ne {β : Type} (m : List (String × β)) {k k' : String} (v : β)
    (h : k' ≠ k) : dictGet (dictSet m k v) k' = dictGet m k' := by
  have hne : k ≠ k' := fun he => h he.symm
  induction m with
  | nil => simp [dictGet, dictSet, hne]
  | cons kv rest ih =>
    by_cases hk : kv.1 = k
    · have hkv : ¬ kv.1 = k' := by rw [hk]; exact hne
      simp [dictSet, dictGet, hk, hne, hkv]
    · by_cases hk' : kv.1 = k'
      · simp [dictSet, dictGet, hk, hk', h]
      · simp [dictSet, dictGet, hk, hk', ih]

/-- A key is unresolvable exactly when it is not among the keys. -/
theorem dictGet_eq_none_iff {β : Type} (m : List (String × β)) (k : String) :
    dictGet m k = none ↔ k ∉ m.map Prod.fst := by
  induction m with
  | nil => simp [dictGet]
  | cons kv rest ih =>
    by_cases h : kv.1 = k
    · simp [dictGet, h]
    · have h' : ¬ k = kv.1 := fun he => h he.symm
      simp [dictGet, h, ih, h']

/-- A successful lookup exhibits a dictionary entry. -/
theorem dictGet_mem {β : Type} {m : List (String × β)} {k : String} {v : β}
    (h : dictGet m k = some v) : (k, v) ∈ m := by
  induction m with
  | nil => simp [dictGet] at h
  | cons kv rest ih =>
    by_cases hk : kv.1 = k
    · simp only [dictGet, hk, if_true, Option.some.injEq] at h
      have hkv : kv = (k, v) := by
        cases kv with
        | mk a b =>
          simp only at hk h
          rw [hk, h]
      rw [← hkv]
      exact List.mem_cons_self _ _
    · simp only [dictGet, hk, if_false] at h
      exact List.mem_cons_of_mem _ (ih h)

/-- Deleting one key leaves lookups of other keys alone. -/
theorem dictGet_dictDel_ne {β : Type} (m : List (String × β)) {k k' : String}
    (h : k ≠ k') : dictGet (dictDel m k') k = dictGet m k := by
  induction m with
  | nil => simp [dictDel]
  | cons kv rest ih =>
    by_cases hk : kv.1 = k'
    · have hkv : ¬ kv.1 = k := by
        rw [hk]
        exact fun he => h he.symm
      have h2 : ¬ k' = k := fun he => h he.symm
      simp [dictDel, dictGet, hk, hkv, h2, ih]
    · simp only [dictDel, hk, if_false, dictGet, ih]

/-- With duplicate-free keys (as in every real dictionary state),
deleting a key makes it unresolvable. -/
theorem dictGet_dictDel_self {β : Type} (m : List (String × β)) (k : String)
    (hnd : (m.map Prod.fst).Nodup) : dictGet (dictDel m k) k = none := by
  induction m with
  | nil => simp [dictDel, dictGet]
  | cons kv rest ih =>
    simp only [List.map_cons, List.nodup_cons] at hnd
    by_cases hk : kv.1 = k
    · simp only [dictDel, hk, if_true]
      rw [dictGet_eq_none_iff]
      exact hk ▸ hnd.1
    · simp [dictDel, dictGet, hk, ih hnd.2]

/-- Updating an absent key appends the entry at the end. -/
theorem dictSet_of_none {β : Type} {m : List (String × β)} {k : String} (v : β)
    (h : dictGet m k = none) : dictSet m k v = m ++ [(k, v)] := by
  induction m with
  | nil => simp [dictSet]
  | cons kv rest ih =>
    by_cases hk : kv.1 = k
    · simp [dictGet, hk] at h
    · simp [dictGet, hk] at h
      simp [dictSet, hk, ih h]

/-- Updating a present key leaves the key sequence unchanged. -/
theorem keys_dictSet_of_mem {β : Type} {m : List (String × β)} {k : String} (v : β)
    (h : k ∈ m.map Prod.fst) : (dictSet m k v).map Prod.fst = m.map Prod.fst := by
  induction m with
  | nil => simp at h
  | cons kv rest ih =>
    by_cases hk : kv.1 = k
    · simp [dictSet, hk]
    · simp only [List.map_cons, List.mem_cons] at h
      rcases h with h | h
      · exact absurd h.symm hk
      · simp [dictSet, hk, ih h]

/-- With duplicate-free keys, every entry after an update is either the
updated one or an untouched entry with a different key. -/
theorem mem_dictSet_nodup {β : Type} {m : List (String × β)} {k : String} {v : β}
    (hnd : (m.map Prod.fst).Nodup) {kv : String × β} (h : kv ∈ dictSet m k v) :
    kv = (k, v) ∨ (kv ∈ m ∧ kv.1 ≠ k) := by
  induction m with
  | nil =>
    simp [dictSet] at h
    exact Or.inl h
  | cons hd rest ih =>
    simp only [List.map_cons, List.nodup_cons] at hnd
    by_cases hk : hd.1 = k
    · simp only [dictSet, hk, if_true, List.mem_cons] at h
      rcases h with h | h
      · exact Or.inl h
      · refine Or.inr ⟨List.mem_cons_of_mem _ h, ?_⟩
        intro hkv
        exact (hk ▸ hnd.1) (hkv ▸ List.mem_map_of_mem Prod.fst h)
    · simp only [dictSet, hk, if_false, List.mem_cons] at h
      rcases h with h | h
      · exact Or.inr ⟨h ▸ List.mem_cons_self hd rest, h ▸ hk⟩
      · rcases ih hnd.2 h with h1 | ⟨h1, h2⟩
        · exact Or.inl h1
        · exact Or.inr ⟨List.mem_cons_of_mem _ h1, h2⟩

/-- The rebuilt id-to-position map has exactly the metadata keys. -/
theorem keys_rebuilt (m : List (String × MetaRec)) :
    (rebuilt_id_to_index m).map Prod.fst = m.map Prod.fst := by
  unfold rebuilt_id_to_index
  rw [List.map_map]
  have : (Prod.fst ∘ fun p : Nat × (String × MetaRec) => (p.2.1, p.1)) =
      (fun p : Nat × (String × MetaRec) => p.2.1) := rfl
  rw [this]
  have h2 : (fun p : Nat × (String × MetaRec) => p.2.1) =
      (Prod.fst ∘ Prod.snd : Nat × (String × MetaRec) → String) := rfl
  rw [h2, ← List.map_map, List.enum_map_snd]

/-- An id absent from metadata is absent from the rebuilt map. -/
theorem rebuilt_get_none {m : List (String × MetaRec)} {k : String}
    (h : k ∉ m.map Prod.fst) : dictGet (rebuilt_id_to_index m) k = none := by
  rw [dictGet_eq_none_iff, keys_rebuilt]
  exact h

/-- A reverse lookup exhibits a forward entry. -/
theorem revLookup_mem {m : List (String × Nat)} {p : Nat} {rid : String}
    (h : revLookup m p = some rid) : rid ∈ m.map Prod.fst := by
  unfold revLookup at h
  cases hf : m.reverse.find? (fun kv => kv.2 = p) with
  | none => rw [hf] at h; simp at h
  | some kv =>
    rw [hf] at h
    simp only [Option.some.injEq] at h
    have hm : kv ∈ m.reverse := List.mem_of_find?_eq_some hf
    rw [List.mem_reverse] at hm
    exact h ▸ List.mem_map_of_mem Prod.fst hm

/-- A reverse lookup of the position just appended finds the new id. -/
theorem revLookup_append (m : List (String × Nat)) (k : String) (p : Nat) :
    revLookup (m ++ [(k, p)]) p = some k := by
  unfold revLookup
  rw [List.reverse_append]
  simp [List.find?]

/-- Squared distances are nonnegative. -/
theorem sqDist_nonneg (q w : Vec) : 0 ≤ sqDist q w := by
  induction q generalizing w with
  | nil => simp [sqDist]
  | cons a q ih =>
    cases w with
    | nil => simp [sqDist]
    | cons b w =>
      simp only [sqDist, List.zipWith_cons_cons, List.sum_cons]
      exact add_nonneg (mul_self_nonneg _) (ih w)

/-- The distance of a vector to itself is exactly zero. -/
theorem sqDist_self (v : Vec) : sqDist v v = 0 := by
  induction v with
  | nil => simp [sqDist]
  | cons a v ih =>
    simp only [sqDist, List.zipWith_cons_cons, List.sum_cons, sub_self, zero_mul,
      zero_add]
    exact ih

/-- If every element maps to some value, filterMap keeps the length. -/
theorem length_filterMap_of_isSome {α β : Type} (l : List α) (g : α → Option β)
    (h : ∀ a ∈ l, (g a).isSome) : (l.filterMap g).length = l.length := by
  induction l with
  | nil => simp
  | cons a l ih =>
    obtain ⟨b, hb⟩ := Option.isSome_iff_exists.mp (h a (List.mem_cons_self a l))
    simp only [List.filterMap_cons, hb, List.length_cons]
    rw [ih (fun x hx => h x (List.mem_cons_of_mem a hx))]

/-- If every element maps to some value, filterMap of a constant map of
the option is an ordinary map. -/
theorem filterMap_map_const {α β γ : Type} (l : List α) (g : α → Option β)
    (f : α → γ) (h : ∀ a ∈ l, (g a).isSome) :
    l.filterMap (fun a => (g a).map (fun _ => f a)) = l.map f := by
  induction l with
  | nil => simp
  | cons a l ih =>
    obtain ⟨b, hb⟩ := Option.isSome_iff_exists.mp (h a (List.mem_cons_self a l))
    simp only [List.filterMap_cons, hb, Option.map_some', List.map_cons]
    rw [ih (fun x hx => h x (List.mem_cons_of_mem a hx))]

/-- getD of an append, inside the left part. -/
theorem getD_append_left {α : Type} (l l' : List α) (d : α) {n : Nat}
    (h : n < l.length) : (l ++ l').getD n d = l.getD n d := by
  induction l generalizing n with
  | nil => exact absurd h (Nat.not_lt_zero n)
  | cons a l ih =>
    cases n with
    | zero => simp
    | succ n =>
      simp only [List.cons_append, List.getD_cons_succ]
      exact ih (Nat.lt_of_succ_lt_succ h)

/-- getD of an append, at the seam: the freshly appended element. -/
theorem getD_append_length {α : Type} (l : List α) (a d : α) :
    (l ++ [a]).getD l.length d = a := by
  induction l with
  | nil => simp
  | cons b l ih =>
    simp only [List.cons_append, List.length_cons, List.getD_cons_succ]
    exact ih

/-- getD at a valid position yields an element of the list. -/
theorem getD_mem {α : Type} {l : List α} {n : Nat} (d : α) (h : n < l.length) :
    l.getD n d ∈ l := by
  induction l generalizing n with
  | nil => exact absurd h (Nat.not_lt_zero n)
  | cons a l ih =>
    cases n with
    | zero => simp
    | succ n =>
      simp only [List.getD_cons_succ]
      exact List.mem_cons_of_mem _ (ih (Nat.lt_of_succ_lt_succ h))

/-- Every ranked candidate is a position of the store with its distance. -/
theorem mem_cands {s : FAISSState} {q : Vec} {pd : Nat × ℤ} (h : pd ∈ cands s q) :
    pd.1 < s.index.length ∧ pd.2 = sqDist q (s.index.getD pd.1 []) := by
  unfold cands at h
  obtain ⟨p, hp, hpd⟩ := List.mem_map.mp h
  rw [List.mem_range] at hp
  exact ⟨hpd ▸ hp, hpd ▸ rfl⟩

/-- Every returned hit pair is a ranked candidate. -/
theorem mem_searchTop {s : FAISSState} {q : Vec} {k : Nat} {pd : Nat × ℤ}
    (h : pd ∈ searchTop s q k) : pd ∈ cands s q := by
  unfold searchTop at h
  have h2 := List.take_subset _ _ h
  exact (List.mem_insertionSort distLe).mp h2

/-- The clamp at line 154 of the source: the ranked prefix has exactly
min of k and ntotal entries. -/
theorem length_searchTop (s : FAISSState) (q : Vec) (k : Nat) :
    (searchTop s q k).length = min k s.index.length := by
  unfold searchTop
  rw [List.length_take, List.length_insertionSort]
  unfold cands
  rw [List.length_map, List.length_range]
  omega

/-- The ranked prefix is sorted: ascending distance, ties by position. -/
theorem sorted_searchTop (s : FAISSState) (q : Vec) (k : Nat) :
    List.Sorted distLe (searchTop s q k) :=
  List.Pairwise.sublist (List.take_sublist _ _)
    (List.sorted_insertionSort distLe (cands s q))

/-- The two persisted artifacts, lines 11-13 of the source: the raw
index dump and the JSON file holding metadata plus id_to_index. -/
structure Disk where
  indexFile : Option (List Vec)
  metaFile : Option (List (String × MetaRec) × List (String × Nat))
deriving DecidableEq

/-- FAISSService._save_index, lines 59-67: writes the index artifact;
any write failure is caught and only logged, so a failing write leaves
the artifact as it was and the caller observes nothing. -/
def save_index (wfail : Bool) (s : FAISSState) (d : Disk) : Disk :=
  if wfail then d else { d with indexFile := some s.index }

/-- FAISSService._save_metadata, lines 69-81: same swallow-on-failure
behaviour for the JSON artifact. -/
def save_metadata (wfail : Bool) (s : FAISSState) (d : Disk) : Disk :=
  if wfail then d else { d with metaFile := some (s.metadata, s.id_to_index) }

/-- add_resume including its persistence step (lines 121-123): on an
in-memory success both artifacts are written; write failures (flags
fi, fm) are swallowed inside the save helpers. -/
def add_resume_persist (fi fm : Bool) (resume_id resume_text : String)
    (embedding : Vec) (md : AttrMap) (s : FAISSState) (d : Disk) :
    Bool × FAISSState × Disk :=
  let r := add_resume resume_id resume_text embedding md s
  if r.1 then (r.1, r.2, save_metadata fm r.2 (save_index fi r.2 d))
  else (r.1, r.2, d)

/-- delete_resume including the persistence step performed inside
_rebuild_index (lines 225-226). -/
def delete_resume_persist (fi fm : Bool) (resume_id : String)
    (s : FAISSState) (d : Disk) : Bool × FAISSState × Disk :=
  let r := delete_resume resume_id s
  if r.1 then (r.1, r.2, save_metadata fm r.2 (save_index fi r.2 d))
  else (r.1, r.2, d)

/-- clear_collection including its persistence step (lines 276-277). -/
def clear_collection_persist (fi fm : Bool) (s : FAISSState) (d : Disk) :
    Bool × FAISSState × Disk :=
  let r := clear_collection s
  (r.1, r.2, save_metadata fm r.2 (save_index fi r.2 d))

/-- What a persisted artifact can look like at startup: missing file,
present but unreadable, or present and well formed. -/
inductive ArtifactState (α : Type) where
  | absent
  | malformed
  | good (a : α)

/-- FAISSService._load_index, lines 26-39: a missing artifact yields a
fresh empty index; an unreadable one raises, the except block logs and
likewise installs a fresh empty index. -/
def load_index : ArtifactState (List Vec) → List Vec
  | ArtifactState.absent => []
  | ArtifactState.malformed => []
  | ArtifactState.good vs => vs

/-- FAISSService._load_metadata, lines 41-57: a missing artifact yields
empty dicts; an unreadable one raises, the except block logs and
likewise installs empty dicts. -/
def load_metadata :
    ArtifactState (List (String × MetaRec) × List (String × Nat)) →
      List (String × MetaRec) × List (String × Nat)
  | ArtifactState.absent => ([], [])
  | ArtifactState.malformed => ([], [])
  | ArtifactState.good md => md

/-- FAISSService.initialize, lines 83-88: load both artifacts. -/
def initService (ia : ArtifactState (List Vec))
    (ma : ArtifactState (List (String × MetaRec) × List (String × Nat))) :
    FAISSState :=
  { index := load_index ia, metadata := (load_metadata ma).1,
    id_to_index := (load_metadata ma).2 }

/-- An in-memory operation of the service, for reasoning about what
later calls can observe. -/
inductive Op where
  | add (id text : String) (v : Vec) (md : AttrMap)
  | del (id : String)
  | clear

/-- Run one operation, keeping only the resulting state. -/
def applyOp (s : FAISSState) : Op → FAISSState
  | Op.add id t v md => (add_resume id t v md s).2
  | Op.del id => (delete_resume id s).2
  | Op.clear => (clear_collection s).2

/-- Run a sequence of operations. -/
def applyOps (s : FAISSState) : List Op → FAISSState
  | [] => s
  | op :: ops => applyOps (applyOp s op) ops

/-- Does this operation add the given id? -/
def addsId (id : String) : Op → Prop
  | Op.add i _ _ _ => i = id
  | Op.del _ => False
  | Op.clear => False

instance (id : String) (op : Op) : Decidable (addsId id op) :=
  match op with
  | Op.add i _ _ _ => inferInstanceAs (Decidable (i = id))
  | Op.del _ => inferInstanceAs (Decidable False)
  | Op.clear => inferInstanceAs (Decidable False)

/-- The id is known to neither dictionary. -/
def Absent (id : String) (s : FAISSState) : Prop :=
  dictGet s.metadata id = none ∧ dictGet s.id_to_index id = none

/-- An absent id is never among the ids a search returns. -/
theorem absent_not_in_search {id : String} {s : FAISSState}
    (h : Absent id s) (q : Vec) (k : Nat) :
    id ∉ searchIds (search_resumes q k s) := by
  unfold search_resumes
  by_cases h0 : s.index.length = 0
  · simp [h0, searchIds]
  · by_cases hq : q.length ≠ dim
    · simp [h0, hq, searchIds]
    · simp only [h0, if_false, hq, if_neg, searchIds]
      intro hmem
      obtain ⟨pd, _, hpd⟩ := List.mem_filterMap.mp hmem
      have hkeys := revLookup_mem hpd
      obtain ⟨_, h2⟩ := h
      rw [dictGet_eq_none_iff] at h2
      exact h2 hkeys

/-- Absence survives any operation that does not add the id. -/
theorem absent_applyOp {id : String} {s : FAISSState} (h : Absent id s)
    {op : Op} (hop : ¬ addsId id op) : Absent id (applyOp s op) := by
  cases op with
  | add i t v md =>
    have hne : id ≠ i := fun he => hop he.symm
    unfold applyOp add_resume
    by_cases hd : v.length ≠ dim
    · simpa [hd] using h
    · simp only [hd, if_false]
      exact ⟨by rw [dictGet_dictSet_ne _ _ hne]; exact h.1,
             by rw [dictGet_dictSet_ne _ _ hne]; exact h.2⟩
  | del i =>
    unfold applyOp delete_resume
    by_cases hm : dictGet s.metadata i = none
    · simpa [hm] using h
    · have hne : id ≠ i := by
        intro he
        rw [he] at h
        exact hm h.1
      have hmd : dictGet (dictDel s.metadata i) id = none := by
        rw [dictGet_dictDel_ne _ hne]; exact h.1
      simp only [hm, if_false]
      by_cases hi : dictGet s.id_to_index i = none
      · simpa [hi] using ⟨hmd, h.2⟩
      · simp only [hi, if_false]
        refine ⟨hmd, ?_⟩
        apply rebuilt_get_none
        rw [← dictGet_eq_none_iff]
        exact hmd
  | clear =>
    exact ⟨rfl, rfl⟩

/-- Absence survives any operation sequence that never adds the id. -/
theorem absent_applyOps {id : String} {s : FAISSState} (h : Absent id s)
    {ops : List Op} (hops : ∀ op ∈ ops, ¬ addsId id op) :
    Absent id (applyOps s ops) := by
  induction ops generalizing s with
  | nil => exact h
  | cons op ops ih =>
    exact ih (absent_applyOp h (hops op (List.mem_cons_self op ops)))
      (fun o ho => hops o (List.mem_cons_of_mem op ho))

/-- A delete that reports success leaves the id absent from both
dictionaries, provided the metadata keys were duplicate-free (as they
are in every state a Python dict can hold). -/
theorem absent_after_delete {id : String} {s : FAISSState}
    (hnd : (s.metadata.map Prod.fst).Nodup)
    (h : (delete_resume id s).1 = true) :
    Absent id (delete_resume id s).2 := by
  unfold delete_resume at h ⊢
  by_cases hm : dictGet s.metadata id = none
  · simp [hm] at h
  · by_cases hi : dictGet s.id_to_index id = none
    · simp [hm, hi] at h
    · simp only [hm, if_false, hi]
      have hmd : dictGet (dictDel s.metadata id) id = none :=
        dictGet_dictDel_self s.metadata id hnd
      refine ⟨hmd, ?_⟩
      apply rebuilt_get_none
      rw [← dictGet_eq_none_iff]
      exact hmd


/-- A 384-dimensional unit vector along axis 0. -/
def e1 : Vec := (1 : ℤ) :: List.replicate 383 0

/-- A 384-dimensional unit vector along axis 1. -/
def e2 : Vec := (0 : ℤ) :: (1 : ℤ) :: List.replicate 382 0

/-- A third distinct 384-dimensional vector. -/
def e3 : Vec := (2 : ℤ) :: List.replicate 383 0

/-- A fourth distinct 384-dimensional vector. -/
def e4 : Vec := (3 : ℤ) :: List.replicate 383 0

/-- A fresh service with two distinct resumes r1 and r2 added. -/
def sPre : FAISSState :=
  (add_resume "r2" "text two" e2 []
    (add_resume "r1" "text one" e1 [] mkEmpty).2).2

/-- C1: the claim says a successful delete leaves stats().count one
below the pre-delete count and every surviving id's self-distance
unchanged. The code instead rebuilds a fresh EMPTY index without
re-adding any vector (_rebuild_index, lines 216-222, only rebuilds the
id mapping; the comment at lines 218-219 admits the embeddings are not
retained), so with two resumes stored, deleting r1 leaves total_items
at 0 instead of 1, and the surviving r2, which was found at distance 0
from its own vector before the delete, is no longer found at all. -/
theorem C1_delete_resets_index :
    (get_collection_stats sPre).total_items = 2 ∧
    searchIds (search_resumes e2 1 sPre) = ["r2"] ∧
    searchDists (search_resumes e2 1 sPre) = [0] ∧
    (delete_resume "r1" sPre).1 = true ∧
    (get_collection_stats (delete_resume "r1" sPre).2).total_items = 0 ∧
    searchIds (search_resumes e2 1 (delete_resume "r1" sPre).2) = [] := by
  decide

/-- C2: the claim says every operation preserves the three-way
invariant that an id in the metadata store maps to a currently
occupied slot of the vector store. The code's delete violates it: after
deleting r1, the surviving r2 is still in metadata and is bound to
position 0, but the rebuilt vector store holds no vectors at all, so
position 0 is not an occupied slot. -/
theorem C2_delete_breaks_invariant :
    (delete_resume "r1" sPre).1 = true ∧
    dictGet (delete_resume "r1" sPre).2.metadata "r2" ≠ none ∧
    dictGet (delete_resume "r1" sPre).2.id_to_index "r2" = some 0 ∧
    (delete_resume "r1" sPre).2.index.length = 0 ∧
    ¬ 0 < (delete_resume "r1" sPre).2.index.length := by
  decide

/-- A fresh service with one resume under id a. -/
def sOneA : FAISSState := (add_resume "a" "first" e1 [] mkEmpty).2

/-- C3 counterexample: the claim says a second add with an id already
present fails with DuplicateId and leaves the state unchanged. The
code has no duplicate check (add_resume, lines 98-126): the second add
returns True and mutates the state (a second vector is appended). -/
theorem C3_duplicate_add_cex :
    dictGet sOneA.metadata "a" ≠ none ∧
    (add_resume "a" "second" e2 [] sOneA).1 = true ∧
    (add_resume "a" "second" e2 [] sOneA).2 ≠ sOneA ∧
    (add_resume "a" "second" e2 [] sOneA).2.index.length = 2 := by
  decide

/-- C3 amended: adding an id that is already present does not fail and
does not leave the state unchanged: the call returns True, appends the
new vector at the end of the store and rebinds the id to that fresh
position. -/
theorem C3_duplicate_add_succeeds (s : FAISSState) (id t : String) (v : Vec)
    (md : AttrMap) (hv : v.length = dim)
    (_hid : dictGet s.metadata id ≠ none) :
    (add_resume id t v md s).1 = true ∧
    (add_resume id t v md s).2.index = s.index ++ [v] ∧
    dictGet (add_resume id t v md s).2.id_to_index id = some s.index.length ∧
    (add_resume id t v md s).2 ≠ s := by
  have hv' : ¬ v.length ≠ dim := fun h => h hv
  have hadd : add_resume id t v md s =
      (true, { index := s.index ++ [v],
               metadata := dictSet s.metadata id ⟨t, md⟩,
               id_to_index := dictSet s.id_to_index id s.index.length }) := by
    unfold add_resume
    rw [if_neg hv']
  rw [hadd]
  refine ⟨rfl, rfl, dictGet_dictSet_self _ _ _, ?_⟩
  intro heq
  have hidx := congrArg FAISSState.index heq
  simp only at hidx
  have hlen := congrArg List.length hidx
  rw [List.length_append, List.length_singleton] at hlen
  omega

/-- C3 witness: a concrete duplicate add on a one-resume state. -/
theorem C3_duplicate_add_succeeds_w :
    e2.length = dim ∧ dictGet sOneA.metadata "a" ≠ none ∧
    ((add_resume "a" "second" e2 [] sOneA).1 = true ∧
     (add_resume "a" "second" e2 [] sOneA).2.index = sOneA.index ++ [e2] ∧
     dictGet (add_resume "a" "second" e2 [] sOneA).2.id_to_index "a" =
       some sOneA.index.length ∧
     (add_resume "a" "second" e2 [] sOneA).2 ≠ sOneA) :=
  ⟨by decide, by decide,
   C3_duplicate_add_succeeds sOneA "a" "second" e2 [] (by decide) (by decide)⟩

/-- The empty disk (no artifacts yet). -/
def emptyDisk : Disk := { indexFile := none, metaFile := none }

/-- C8 counterexample: the claim says a failure while writing the
artifacts is surfaced to the caller as a persistence error. The save
helpers (lines 59-81) catch every exception and only log it, so an add
whose both artifact writes fail still returns True to its caller and
nothing reaches the disk. -/
theorem C8_write_failure_silently_absorbed :
    (add_resume_persist true true "a" "t" e1 [] mkEmpty emptyDisk).1 = true ∧
    (add_resume_persist true true "a" "t" e1 [] mkEmpty emptyDisk).2.2 =
      emptyDisk := by
  decide

/-- C8 amended: a failed artifact write is logged and silently
absorbed: every mutating operation reports the same outcome to its
caller as with a successful write, and the in-memory state after the
failed write is the same valid post-mutation state as after a
successful write. -/
theorem C8_memory_independent_of_write_failure (fi fm : Bool)
    (id t : String) (v : Vec) (md : AttrMap) (s : FAISSState) (d : Disk) :
    (add_resume_persist fi fm id t v md s d).1 = (add_resume id t v md s).1 ∧
    (add_resume_persist fi fm id t v md s d).2.1 = (add_resume id t v md s).2 ∧
    (delete_resume_persist fi fm id s d).1 = (delete_resume id s).1 ∧
    (delete_resume_persist fi fm id s d).2.1 = (delete_resume id s).2 ∧
    (clear_collection_persist fi fm s d).1 = (clear_collection s).1 ∧
    (clear_collection_persist fi fm s d).2.1 = (clear_collection s).2 := by
  constructor
  · by_cases h : (add_resume id t v md s).1 = true <;>
      simp [add_resume_persist, h]
  constructor
  · by_cases h : (add_resume id t v md s).1 = true <;>
      simp [add_resume_persist, h]
  constructor
  · by_cases h : (delete_resume id s).1 = true <;>
      simp [delete_resume_persist, h]
  constructor
  · by_cases h : (delete_resume id s).1 = true <;>
      simp [delete_resume_persist, h]
  exact ⟨rfl, rfl⟩

/-- C9 counterexample: the claim says a present but malformed artifact
makes the load fail with an error. Both loaders (lines 26-39 and
41-57) catch the exception, log it, and fall back to a fresh empty
index and empty dicts: a malformed artifact is indistinguishable from
an absent one, and the service continues with an empty state. -/
theorem C9_malformed_silently_reset :
    load_index ArtifactState.malformed = load_index ArtifactState.absent ∧
    load_metadata ArtifactState.malformed = load_metadata ArtifactState.absent ∧
    initService ArtifactState.malformed ArtifactState.malformed = mkEmpty := by
  exact ⟨rfl, rfl, rfl⟩

/-- C9 amended: if a persisted artifact is absent the corresponding
store starts empty; if it is present and malformed the load error is
caught and logged and the store likewise starts empty, silently
discarding the persisted data rather than failing. -/
theorem C9_load_fallback :
    load_index ArtifactState.absent = [] ∧
    load_index ArtifactState.malformed = [] ∧
    (∀ vs, load_index (ArtifactState.good vs) = vs) ∧
    load_metadata ArtifactState.absent = ([], []) ∧
    load_metadata ArtifactState.malformed = ([], []) ∧
    (∀ md, load_metadata (ArtifactState.good md) = md) ∧
    initService ArtifactState.absent ArtifactState.absent = mkEmpty := by
  exact ⟨rfl, rfl, fun _ => rfl, rfl, rfl, fun _ => rfl, rfl⟩

/-- The same id added twice: the vector of the first add still occupies
position 0 but no id is bound to it any more (an orphan slot). -/
def sDup : FAISSState :=
  (add_resume "a" "second" e2 [] (add_resume "a" "first" e1 [] mkEmpty).2).2

/-- C4 counterexample: the claim says search returns exactly
min(k, count) hits. In the reachable state sDup the store holds two
vectors but only one is bound to an id, and search with k = 2 skips
the raw hit at the orphan position (line 171 of the source), returning
a single hit although min(k, count) = 2. -/
theorem C4_orphan_slot_cex :
    (get_collection_stats sDup).total_items = 2 ∧
    min 2 (get_collection_stats sDup).total_items = 2 ∧
    (searchIds (search_resumes e1 2 sDup)).length = 1 := by
  decide

/-- C4 amended: in states where every occupied slot of the vector
store is bound to some id, search returns exactly min(k, count) hits;
the returned distances are those of the ranked prefix, which is sorted
by ascending squared distance with ties broken by ascending position;
and on an empty index the result is the empty response, not an error. -/
theorem C4_search_shape (q : Vec) (k : Nat) (s : FAISSState)
    (hq : q.length = dim)
    (hcov : ∀ p, p < s.index.length → revLookup s.id_to_index p ≠ none) :
    (searchIds (search_resumes q k s)).length = min k s.index.length ∧
    searchDists (search_resumes q k s) = (searchTop s q k).map Prod.snd ∧
    List.Sorted distLe (searchTop s q k) ∧
    (s.index.length = 0 → search_resumes q k s = some ⟨[], [], [], []⟩) := by
  have hq' : ¬ q.length ≠ dim := fun h => h hq
  have hsome : ∀ pd ∈ searchTop s q k, (revLookup s.id_to_index pd.1).isSome := by
    intro pd hpd
    exact Option.ne_none_iff_isSome.mp (hcov pd.1 (mem_cands (mem_searchTop hpd)).1)
  by_cases h0 : s.index.length = 0
  · refine ⟨?_, ?_, sorted_searchTop s q k, fun _ => by simp [search_resumes, h0]⟩
    · simp [search_resumes, h0, searchIds]
    · simp [search_resumes, h0, searchDists, searchTop, cands,
        List.insertionSort]
  · refine ⟨?_, ?_, sorted_searchTop s q k, fun h => absurd h h0⟩
    · unfold search_resumes
      rw [if_neg h0, if_neg hq']
      simp only [searchIds]
      rw [length_filterMap_of_isSome _ _ hsome, length_searchTop]
    · unfold search_resumes
      rw [if_neg h0, if_neg hq']
      simp only [searchDists]
      exact filterMap_map_const _ _ _ hsome

/-- C4 witness: the two-resume state, with k = 5 exceeding the count,
returns exactly both stored items. -/
theorem C4_search_shape_w :
    e1.length = dim ∧
    (∀ p, p < sPre.index.length → revLookup sPre.id_to_index p ≠ none) ∧
    ((searchIds (search_resumes e1 5 sPre)).length = min 5 sPre.index.length ∧
     searchDists (search_resumes e1 5 sPre) = (searchTop sPre e1 5).map Prod.snd ∧
     List.Sorted distLe (searchTop sPre e1 5) ∧
     (sPre.index.length = 0 → search_resumes e1 5 sPre = some ⟨[], [], [], []⟩)) :=
  ⟨by decide, by decide, C4_search_shape e1 5 sPre (by decide) (by decide)⟩

/-- C5: once delete(id) succeeds, no later search returns that id, no
matter the query, the k, and any further adds of other ids, deletes or
clears in between. The duplicate-free-keys hypothesis states what is
true of every real Python dict state. -/
theorem C5_deleted_id_not_returned (s : FAISSState) (id : String)
    (ops : List Op) (q : Vec) (k : Nat)
    (hnd : (s.metadata.map Prod.fst).Nodup)
    (hdel : (delete_resume id s).1 = true)
    (hops : ∀ op ∈ ops, ¬ addsId id op) :
    id ∉ searchIds (search_resumes q k (applyOps (delete_resume id s).2 ops)) :=
  absent_not_in_search (absent_applyOps (absent_after_delete hnd hdel) hops) q k

/-- Operations run after the delete in the C5 witness. -/
def opsW : List Op :=
  [Op.add "r3" "t3" e3 [], Op.del "r2", Op.add "r4" "t4" e4 []]

/-- C5 witness: delete r1 from the two-resume state, run three further
operations, search: r1 is not among the hits. -/
theorem C5_deleted_id_not_returned_w :
    (sPre.metadata.map Prod.fst).Nodup ∧
    (delete_resume "r1" sPre).1 = true ∧
    (∀ op ∈ opsW, ¬ addsId "r1" op) ∧
    "r1" ∉ searchIds
      (search_resumes e1 4 (applyOps (delete_resume "r1" sPre).2 opsW)) :=
  ⟨by decide, by decide, by decide,
   C5_deleted_id_not_returned sPre "r1" opsW e1 4 (by decide) (by decide)
     (by decide)⟩

/-- The same vector stored under two ids: a exact-duplicate of the
vector later added under the fresh id b. -/
def sTie : FAISSState :=
  (add_resume "b" "tb" e1 [] (add_resume "a" "ta" e1 [] mkEmpty).2).2

/-- C6 counterexample: the claim says add(id, v) followed by
search(v, 1) returns that id for every fresh id and every vector of
dimension D. If an equal vector is already stored, the distance-0 tie
is broken towards the smaller physical position (the earlier vector),
so the single returned hit is the OLD id a, not the just-added b. -/
theorem C6_tie_cex :
    dictGet (add_resume "a" "ta" e1 [] mkEmpty).2.id_to_index "b" = none ∧
    (add_resume "b" "tb" e1 [] (add_resume "a" "ta" e1 [] mkEmpty).2).1 = true ∧
    searchIds (search_resumes e1 1 sTie) = ["a"] ∧
    searchDists (search_resumes e1 1 sTie) = [0] := by
  decide

/-- C6 amended: if moreover no already-stored vector is at squared
distance 0 from v (no exact duplicate), then add(id, v) followed by
search(v, 1) returns that id as the single hit, at distance 0. -/
theorem C6_add_then_search_self (s : FAISSState) (id t : String) (v : Vec)
    (md : AttrMap) (hv : v.length = dim)
    (hid : dictGet s.id_to_index id = none)
    (hfar : ∀ w ∈ s.index, sqDist v w ≠ 0) :
    (add_resume id t v md s).1 = true ∧
    searchIds (search_resumes v 1 (add_resume id t v md s).2) = [id] ∧
    searchDists (search_resumes v 1 (add_resume id t v md s).2) = [0] := by
  have hv' : ¬ v.length ≠ dim := fun h => h hv
  have hadd : add_resume id t v md s =
      (true, { index := s.index ++ [v],
               metadata := dictSet s.metadata id ⟨t, md⟩,
               id_to_index := dictSet s.id_to_index id s.index.length }) := by
    unfold add_resume
    rw [if_neg hv']
  set n := s.index.length with hn
  set s' : FAISSState :=
    { index := s.index ++ [v],
      metadata := dictSet s.metadata id ⟨t, md⟩,
      id_to_index := dictSet s.id_to_index id n } with hs'
  have hlen : s'.index.length = n + 1 := by
    rw [hs']
    simp [hn]
  have hget_n : s'.index.getD n [] = v := by
    rw [hs', hn]
    exact getD_append_length s.index v []
  have hmem0 : (n, (0:ℤ)) ∈ cands s' v := by
    unfold cands
    rw [hlen]
    refine List.mem_map.mpr ⟨n, List.mem_range.mpr (Nat.lt_succ_self n), ?_⟩
    rw [hget_n, sqDist_self]
  have hcand : ∀ pd ∈ cands s' v, pd = (n, 0) ∨ 0 < pd.2 := by
    intro pd hpd
    obtain ⟨hlt, hdist⟩ := mem_cands hpd
    rw [hlen] at hlt
    rcases Nat.lt_succ_iff_lt_or_eq.mp hlt with h | h
    · right
      have hg : s'.index.getD pd.1 [] = s.index.getD pd.1 [] := by
        rw [hs']
        exact getD_append_left _ _ _ (hn ▸ h)
      have hmm : s.index.getD pd.1 [] ∈ s.index := getD_mem _ (hn ▸ h)
      rw [hdist, hg]
      exact lt_of_le_of_ne (sqDist_nonneg _ _) (Ne.symm (hfar _ hmm))
    · left
      have h2 : pd.2 = 0 := by
        rw [hdist, h, hget_n, sqDist_self]
      exact Prod.ext h h2
  have hsorted := List.sorted_insertionSort distLe (cands s' v)
  have hlenS : (List.insertionSort distLe (cands s' v)).length = n + 1 := by
    rw [List.length_insertionSort]
    unfold cands
    rw [List.length_map, List.length_range, hlen]
  obtain ⟨f, rest, hS⟩ :
      ∃ f rest, List.insertionSort distLe (cands s' v) = f :: rest := by
    cases hC : List.insertionSort distLe (cands s' v) with
    | nil => rw [hC] at hlenS; simp at hlenS
    | cons f rest => exact ⟨f, rest, rfl⟩
  have hfmem : f ∈ cands s' v :=
    (List.mem_insertionSort distLe).mp (by rw [hS]; exact List.mem_cons_self _ _)
  have hf : f = (n, 0) := by
    by_contra hne
    have h0mem : (n, (0:ℤ)) ∈ f :: rest := by
      rw [← hS]
      exact (List.mem_insertionSort distLe).mpr hmem0
    have h0rest : (n, (0:ℤ)) ∈ rest := by
      rcases List.mem_cons.mp h0mem with h | h
      · exact absurd h.symm hne
      · exact h
    have hrel : distLe f (n, 0) := by
      rw [hS] at hsorted
      exact (List.sorted_cons.mp hsorted).1 _ h0rest
    rcases hcand f hfmem with h | h
    · exact hne h
    · rcases hrel with h2 | ⟨h2, _⟩
      · exact absurd h2 (not_lt.mpr h.le)
      · exact absurd h2 (ne_of_gt h)
  have htop : searchTop s' v 1 = [(n, 0)] := by
    unfold searchTop
    rw [hlen]
    have hmin : min 1 (n + 1) = 1 := Nat.min_eq_left (Nat.succ_le_succ (Nat.zero_le n))
    rw [hmin, hS, hf]
    rfl
  have hrev : revLookup s'.id_to_index n = some id := by
    have happ : s'.id_to_index = s.id_to_index ++ [(id, n)] := by
      rw [hs']
      exact dictSet_of_none _ hid
    rw [happ]
    exact revLookup_append _ _ _
  have hne0 : ¬ s'.index.length = 0 := by
    rw [hlen]
    exact Nat.succ_ne_zero n
  refine ⟨by rw [hadd], ?_, ?_⟩
  · rw [hadd]
    show searchIds (search_resumes v 1 s') = [id]
    unfold search_resumes
    rw [if_neg hne0, if_neg hv']
    simp only [searchIds]
    rw [htop]
    simp [List.filterMap_cons, hrev]
  · rw [hadd]
    show searchDists (search_resumes v 1 s') = [0]
    unfold search_resumes
    rw [if_neg hne0, if_neg hv']
    simp only [searchDists]
    rw [htop]
    simp [List.filterMap_cons, hrev]

/-- C6 witness: adding a fresh id with a vector unlike the one already
stored, then searching for it, returns exactly that id at distance 0. -/
theorem C6_add_then_search_self_w :
    e2.length = dim ∧ dictGet sOneA.id_to_index "b" = none ∧
    (∀ w ∈ sOneA.index, sqDist e2 w ≠ 0) ∧
    ((add_resume "b" "tb" e2 [] sOneA).1 = true ∧
     searchIds (search_resumes e2 1 (add_resume "b" "tb" e2 [] sOneA).2) =
       ["b"] ∧
     searchDists (search_resumes e2 1 (add_resume "b" "tb" e2 [] sOneA).2) =
       [0]) :=
  ⟨by decide, by decide, by decide,
   C6_add_then_search_self sOneA "b" "tb" e2 [] (by decide) (by decide)
     (by decide)⟩

/-- C7 counterexample: the claim says delete then fully rebuilds the
vector store from the remaining metadata entries. After deleting r1,
the remaining entry r2 is still listed, yet the rebuilt vector store
contains no vector at all: _rebuild_index (lines 216-222) installs a
fresh empty IndexFlatL2 and never re-adds the surviving embeddings
(they are not retained anywhere, as the comment at lines 218-219
admits). -/
theorem C7_rebuild_discards_vectors_cex :
    (delete_resume "r1" sPre).1 = true ∧
    list_all_resumes (delete_resume "r1" sPre).2 = ["r2"] ∧
    (delete_resume "r1" sPre).2.index = [] := by
  decide

/-- C7 amended: in states whose dictionaries are key-consistent (the
metadata keys are duplicate-free and an id present in metadata is also
present in the id-to-position map, as the service maintains), delete
fails exactly when the id is absent from the metadata store; when
present, the id is removed from both dictionaries, the vector store is
replaced by a fresh EMPTY one (surviving vectors are not re-stored),
and the id-to-position map is rebuilt from the remaining metadata
entries with consecutive positions in metadata order. -/
theorem C7_delete_semantics (s : FAISSState) (id : String)
    (hnd : (s.metadata.map Prod.fst).Nodup)
    (hk : dictGet s.metadata id ≠ none → dictGet s.id_to_index id ≠ none) :
    ((delete_resume id s).1 = false ↔ dictGet s.metadata id = none) ∧
    (dictGet s.metadata id ≠ none →
      (delete_resume id s).2.metadata = dictDel s.metadata id ∧
      dictGet (delete_resume id s).2.metadata id = none ∧
      dictGet (delete_resume id s).2.id_to_index id = none ∧
      (delete_resume id s).2.index = [] ∧
      (delete_resume id s).2.id_to_index =
        rebuilt_id_to_index (dictDel s.metadata id)) := by
  by_cases hm : dictGet s.metadata id = none
  · constructor
    · unfold delete_resume
      rw [if_pos hm]
      simp [hm]
    · intro h
      exact absurd hm h
  · have hi : ¬ dictGet s.id_to_index id = none := hk hm
    have hdel : delete_resume id s =
        (true, { index := [], metadata := dictDel s.metadata id,
                 id_to_index := rebuilt_id_to_index (dictDel s.metadata id) }) := by
      unfold delete_resume
      rw [if_neg hm, if_neg hi]
    rw [hdel]
    constructor
    · simp [hm]
    · intro _
      have hmd : dictGet (dictDel s.metadata id) id = none :=
        dictGet_dictDel_self s.metadata id hnd
      exact ⟨rfl, hmd, rebuilt_get_none ((dictGet_eq_none_iff _ _).mp hmd),
             rfl, rfl⟩

/-- C7 witness: deleting r1 from the two-resume state. -/
theorem C7_delete_semantics_w :
    (sPre.metadata.map Prod.fst).Nodup ∧
    (dictGet sPre.metadata "r1" ≠ none →
      dictGet sPre.id_to_index "r1" ≠ none) ∧
    (((delete_resume "r1" sPre).1 = false ↔
        dictGet sPre.metadata "r1" = none) ∧
     (dictGet sPre.metadata "r1" ≠ none →
       (delete_resume "r1" sPre).2.metadata = dictDel sPre.metadata "r1" ∧
       dictGet (delete_resume "r1" sPre).2.metadata "r1" = none ∧
       dictGet (delete_resume "r1" sPre).2.id_to_index "r1" = none ∧
       (delete_resume "r1" sPre).2.index = [] ∧
       (delete_resume "r1" sPre).2.id_to_index =
         rebuilt_id_to_index (dictDel sPre.metadata "r1"))) :=
  ⟨by decide, by decide, C7_delete_semantics sPre "r1" (by decide) (by decide)⟩

/-- A reachable state in which two ids share position 0: after a
delete emptied the store, b stayed bound to 0 and the next add bound c
to the then-current ntotal, which was 0 again. -/
def sShared : FAISSState :=
  (add_resume "c" "tc" e3 []
    (delete_resume "a"
      (add_resume "b" "tb" e2 []
        (add_resume "a" "ta" e1 [] mkEmpty).2).2).2).2

/-- C10 counterexample: the claim says that after a duplicate add the
previous position of the id has no id mapped to it. In sShared the id
c is bound to position 0, which id b also occupies; after re-adding c,
b is still mapped to c's old position 0. -/
theorem C10_shared_position_cex :
    dictGet sShared.metadata "c" ≠ none ∧
    dictGet sShared.id_to_index "c" = some 0 ∧
    dictGet sShared.id_to_index "b" = some 0 ∧
    (add_resume "c" "tc2" e4 [] sShared).1 = true ∧
    dictGet (add_resume "c" "tc2" e4 [] sShared).2.id_to_index "b" = some 0 := by
  decide

/-- C10 amended: when the already-present id occupies a real slot of
the vector store that no other id shares (and the id-to-position keys
are duplicate-free, as in every real dict state), a duplicate add with
a 384-dimensional vector returns True, replaces the metadata record,
rebinds the id to the freshly appended position, appends the vector
(so total_items grows by one while the listed ids stay the same), and
leaves the old vector in place at its now-unmapped old position. -/
theorem C10_duplicate_add_full (s : FAISSState) (id t : String) (v : Vec)
    (md : AttrMap) (p : Nat)
    (hv : v.length = dim)
    (hm : dictGet s.metadata id ≠ none)
    (_hp : dictGet s.id_to_index id = some p)
    (hlt : p < s.index.length)
    (hnd : (s.id_to_index.map Prod.fst).Nodup)
    (huniq : ∀ kv ∈ s.id_to_index, kv.1 ≠ id → kv.2 ≠ p) :
    (add_resume id t v md s).1 = true ∧
    dictGet (add_resume id t v md s).2.metadata id = some ⟨t, md⟩ ∧
    dictGet (add_resume id t v md s).2.id_to_index id = some s.index.length ∧
    (add_resume id t v md s).2.index = s.index ++ [v] ∧
    (get_collection_stats (add_resume id t v md s).2).total_items =
      (get_collection_stats s).total_items + 1 ∧
    list_all_resumes (add_resume id t v md s).2 = list_all_resumes s ∧
    (add_resume id t v md s).2.index.getD p [] = s.index.getD p [] ∧
    (∀ kv ∈ (add_resume id t v md s).2.id_to_index, kv.2 ≠ p) := by
  have hv' : ¬ v.length ≠ dim := fun h => h hv
  have hadd : add_resume id t v md s =
      (true, { index := s.index ++ [v],
               metadata := dictSet s.metadata id ⟨t, md⟩,
               id_to_index := dictSet s.id_to_index id s.index.length }) := by
    unfold add_resume
    rw [if_neg hv']
  have hmem : id ∈ s.metadata.map Prod.fst := by
    by_contra hno
    exact hm ((dictGet_eq_none_iff _ _).mpr hno)
  rw [hadd]
  refine ⟨rfl, dictGet_dictSet_self _ _ _, dictGet_dictSet_self _ _ _, rfl,
    ?_, ?_, ?_, ?_⟩
  · simp [get_collection_stats]
  · exact keys_dictSet_of_mem _ hmem
  · exact getD_append_left _ _ _ hlt
  · intro kv hkv
    rcases mem_dictSet_nodup hnd hkv with h | ⟨h1, h2⟩
    · rw [h]
      exact (Nat.ne_of_lt hlt).symm
    · exact huniq kv h1 h2

/-- C10 witness: a consistent one-resume state, re-adding its id. -/
def sW10 : FAISSState :=
  { index := [e1], metadata := [("a", ⟨"ta", []⟩)], id_to_index := [("a", 0)] }

/-- C10 witness: the duplicate add on the consistent one-resume state. -/
theorem C10_duplicate_add_full_w :
    e2.length = dim ∧
    dictGet sW10.metadata "a" ≠ none ∧
    dictGet sW10.id_to_index "a" = some 0 ∧
    0 < sW10.index.length ∧
    (sW10.id_to_index.map Prod.fst).Nodup ∧
    (∀ kv ∈ sW10.id_to_index, kv.1 ≠ "a" → kv.2 ≠ 0) ∧
    ((add_resume "a" "t2" e2 [] sW10).1 = true ∧
     dictGet (add_resume "a" "t2" e2 [] sW10).2.metadata "a" =
       some ⟨"t2", []⟩ ∧
     dictGet (add_resume "a" "t2" e2 [] sW10).2.id_to_index "a" =
       some sW10.index.length ∧
     (add_resume "a" "t2" e2 [] sW10).2.index = sW10.index ++ [e2] ∧
     (get_collection_stats (add_resume "a" "t2" e2 [] sW10).2).total_items =
       (get_collection_stats sW10).total_items + 1 ∧
     list_all_resumes (add_resume "a" "t2" e2 [] sW10).2 =
       list_all_resumes sW10 ∧
     (add_resume "a" "t2" e2 [] sW10).2.index.getD 0 [] =
       sW10.index.getD 0 [] ∧
     (∀ kv ∈ (add_resume "a" "t2" e2 [] sW10).2.id_to_index, kv.2 ≠ 0)) :=
  ⟨by decide, by decide, by decide, by decide, by decide, by decide,
   C10_duplicate_add_full sW10 "a" "t2" e2 [] 0 (by decide) (by decide)
     (by decide) (by decide) (by decide) (by decide)⟩
